import Mathlib

/-!
Verification development for the pulse_demo repository.

The Lean definitions below are shallow embeddings of the Python source:

* `src/action/sprint_agent.py`   — placeholder resolution, duplicate-click guard
* `src/codex/learning_to_codex.py` — the reliability classifier
* `src/reading/vision_fusion.py`  — treasure-map fusion and match quality
* `src/reading/run_ocr_mac_native.py` — OCR line reconstruction

Machine floats of the source are modelled by exact rationals; Python strings by
Lean `String` over their character lists; Python dict access `d["k"]` raising
`KeyError` and undefined names raising `NameError` are modelled with `Except`.
-/

/-! ### Python string primitives (ASCII fragment used by this repository) -/

/-- Whitespace characters recognised by Python `str.strip` / `str.split`
(ASCII fragment). -/
def isPyWs (c : Char) : Bool :=
  c = ' ' ∨ c = '\t' ∨ c = '\n' ∨ c = '\r' ∨ c = '\x0b' ∨ c = '\x0c'

/-- Python `str.strip()` on the character list. -/
def stripChars (s : List Char) : List Char :=
  ((s.dropWhile isPyWs).reverse.dropWhile isPyWs).reverse

/-- Python `str.strip()`. -/
def pyStrip (s : String) : String := ⟨stripChars s.data⟩

/-- Python `str.lower()` (ASCII fragment). -/
def pyLower (s : String) : String := ⟨s.data.map Char.toLower⟩

/-- Substring test on character lists: Python `needle in hay`. -/
def inChars (needle hay : List Char) : Bool :=
  (List.range (hay.length + 1)).any (fun i => (hay.drop i).take needle.length == needle)

/-- Python `needle in hay` on strings. -/
def pyIn (needle hay : String) : Bool := inChars needle.data hay.data

/-- Python `s.startswith(p)`. -/
def pyStartsWith (s p : String) : Bool := p.data.isPrefixOf s.data

/-- One step of Python `str.replace`: scan left to right, replacing
non-overlapping occurrences.  `fuel` bounds the recursion (list length). -/
def pyReplaceAux (pat rep : List Char) : Nat → List Char → List Char
  | 0, s => s
  | Nat.succ fuel, s =>
    match s with
    | [] => []
    | c :: rest =>
      if pat.isPrefixOf s then rep ++ pyReplaceAux pat rep fuel (s.drop pat.length)
      else c :: pyReplaceAux pat rep fuel rest

/-- Python `s.replace(pat, rep)` (all occurrences, left to right). -/
def pyReplace (s pat rep : String) : String :=
  ⟨pyReplaceAux pat.data rep.data s.data.length s.data⟩

/-! ### sprint_agent.py — duplicate-click suppression (claims C5, C10)

`execute_action` in `src/action/sprint_agent.py` contains the guard twice,
verbatim, once for direct-coordinate clicks (lines 836-908) and once for
treasure-map clicks (lines 930-1002).  Both blocks read and update the same
`task_context` fields, modelled by `TaskContext` below.  The source stores
click positions as integer pixel tuples. -/

structure TaskContext where
  last_click_coords : Option (Int × Int)
  last_click_target : Option String
  last_click_time : Option ℚ
  last_skipped_target : Option String
deriving DecidableEq

/-- Python `target.lower().strip()` as used by the guard. -/
def normTarget (s : String) : String := pyStrip (pyLower s)

/-- The duplicate-click guard of `execute_action`: decides whether a click at
pixel `(finalX, finalY)` aimed at `target` is issued, and returns the updated
context.  The source computes `distance = sqrt(dx^2 + dy^2)` on floats and
tests `distance <= 2` and `distance < 15`; for integer pixel coordinates these
are exactly `dx^2 + dy^2 <= 4` and `dx^2 + dy^2 < 225` (15 = click_tolerance),
which is how they are written here. -/
def shouldClickB (finalX finalY : Int) (target : String) (ctx : TaskContext) : Bool :=
  match ctx.last_click_coords, ctx.last_click_target with
  | some lc, some lt =>
    let d2 : Int := (finalX - lc.1) ^ 2 + (finalY - lc.2) ^ 2
    if d2 ≤ 4 then false
    else if d2 < 225 ∧ normTarget target = normTarget lt then false
    else true
  | _, _ => true

/-- The branch of `execute_action` that issues the click or records the skip,
updating the context fields exactly as the source does. -/
def directClickGuard (finalX finalY : Int) (target : String) (now : ℚ)
    (ctx : TaskContext) : Bool × TaskContext :=
  if shouldClickB finalX finalY target ctx then
    (true, { ctx with
              last_click_coords := some (finalX, finalY)
              last_click_target := some target
              last_click_time := some now })
  else
    (false, { ctx with last_skipped_target := some target })

/-! ### sprint_agent.py — placeholder resolution (claim C6) -/

/-- Values of a step dictionary.  Only string fields are rewritten by
`resolve_step_placeholders`; the remaining Python value kinds appearing in
steps are carried opaquely. -/
inductive StepVal where
  | pstr (s : String)
  | pnum (q : ℚ)
  | pbool (b : Bool)
  | pnone
deriving DecidableEq

/-- A step is a dict, modelled as an association list in insertion order. -/
abbrev StepDict := List (String × StepVal)

/-- The variable context `task_context` restricted to the values substituted
into strings: Python runs `str(ctx_val) if ctx_val is not None else ""`, so a
`none` value substitutes the empty string. -/
abbrev VarContext := List (String × Option String)

/-- Method 1 of `resolve_step_placeholders`: for each context item, replace
every occurrence of the literal placeholder `"\x7b" + key + "\x7d"`. -/
def directPass (ctx : VarContext) (v : String) : String :=
  ctx.foldl
    (fun acc kv =>
      pyReplace acc ("\x7b" ++ kv.1 ++ "\x7d") (kv.2.getD ""))
    v

/-- Index of the first closing brace in a character list. -/
def findRBrace : List Char → Option Nat
  | [] => none
  | c :: rest => if c = '\x7d' then some 0 else (findRBrace rest).map (· + 1)

/-- First-match lookup in the variable context (keys are unique, so this
agrees with Python dict lookup). -/
def ctxLookup (ctx : VarContext) (k : String) : Option (Option String) :=
  (ctx.find? (fun kv => kv.1 == k)).map Prod.snd

/-- Method 2 of `resolve_step_placeholders`:
`re.sub(r"\x7b\s*([^\x7d]+)\s*\x7d", regex_replace, v)`.
A match starts at a `\x7b` whose first following `\x7d` has at least one
character in between; the captured content is stripped and looked up in the
context, substituting its value, else the matched text is kept; scanning
resumes after the match.  `fuel` bounds the recursion (list length). -/
def regexSubPlaceholders (ctx : VarContext) : Nat → List Char → List Char
  | 0, s => s
  | Nat.succ _, [] => []
  | Nat.succ fuel, c :: rest =>
    if c = '\x7b' then
      match findRBrace rest with
      | some j =>
        if 1 ≤ j then
          let content := rest.take j
          match ctxLookup ctx ⟨stripChars content⟩ with
          | some ov => (ov.getD "").data ++ regexSubPlaceholders ctx fuel (rest.drop (j + 1))
          | none => c :: (content ++ '\x7d' :: regexSubPlaceholders ctx fuel (rest.drop (j + 1)))
        else c :: regexSubPlaceholders ctx fuel rest
      | none => c :: regexSubPlaceholders ctx fuel rest
    else c :: regexSubPlaceholders ctx fuel rest

/-- Both passes of `resolve_step_placeholders` on one string field. -/
def resolveField (ctx : VarContext) (v : String) : String :=
  let v1 := directPass ctx v
  ⟨regexSubPlaceholders ctx v1.data.length v1.data⟩

/-- `resolve_step_placeholders`: rewrite every string field, keep the rest. -/
def resolveStepPlaceholders (step : StepDict) (ctx : VarContext) : StepDict :=
  step.map fun kv =>
    match kv.2 with
    | StepVal.pstr s => (kv.1, StepVal.pstr (resolveField ctx s))
    | v => (kv.1, v)

/-- Mirror 2 of `ping_pong_loop` (sprint_agent.py lines 655-662): a resolved
step is refused when any string field still contains both braces. -/
def hasUnresolvedBraces (step : StepDict) : Bool :=
  step.any fun kv =>
    match kv.2 with
    | StepVal.pstr s => inChars ['\x7b'] s.data && inChars ['\x7d'] s.data
    | _ => false

/-- Outcome of one step of `ping_pong_loop` after placeholder resolution:
either the resolved step reaches `execute_action`, or the loop breaks first. -/
inductive StepOutcome where
  | executed (resolved : StepDict)
  | aborted (resolved : StepDict)
deriving DecidableEq

/-- The placeholder-resolution stage of `ping_pong_loop` for one step:
resolve, then refuse (break) on unresolved tokens, else execute. -/
def pingPongStepGate (step : StepDict) (ctx : VarContext) : StepOutcome :=
  let resolved := resolveStepPlaceholders step ctx
  if hasUnresolvedBraces resolved then StepOutcome.aborted resolved
  else StepOutcome.executed resolved

/-! ### learning_to_codex.py — the reliability classifier (claims C1, C3, C4)

Dictionaries are modelled as structures of optional fields; `d.get(k, v)` is
`field.getD v`, and `d["k"]` on a missing key raises, modelled with `Except`.
The OCR call `extract_target_text_from_coordinates` performs file and OCR
backend access and is passed in as an oracle that may raise. -/

inductive PyError where
  | keyError (k : String)
  | nameError (n : String)
  | valueError (m : String)
deriving DecidableEq

structure PyWindow where
  app : Option String
  title : Option String
  alpha : Option ℚ
  width : Option ℚ
  height : Option ℚ
deriving DecidableEq

def emptyWindow : PyWindow := ⟨none, none, none, none, none⟩

structure PyAction where
  event : Option String
  text : Option String
  key : Option String
  rel_position : Option (ℚ × ℚ)
  window : Option PyWindow
  crop_screenshot : Option String
deriving DecidableEq

structure DetectionInfo where
  detected_text : Option String
  ocr_confidence : String
  crop_screenshot : Option String
deriving DecidableEq

/-- The external OCR extraction (`extract_target_text_from_coordinates`). -/
abbrev OcrOracle := PyAction → Except PyError String

/-- Python `str.title()` (ASCII fragment): a letter after a non-letter is
uppercased, any other letter lowercased. -/
def pyTitleCase (s : String) : String :=
  ⟨(s.data.foldl
      (fun (st : Bool × List Char) c =>
        if c.isAlpha then
          (true, (if st.1 then c.toLower else c.toUpper) :: st.2)
        else (false, c :: st.2))
      (false, [])).2.reverse⟩

/-- ASCII word character of the regex class backslash-w. -/
def isWordChar (c : Char) : Bool := c.isAlphanum ∨ c = '_'

/-- Python `s.split()`: split on whitespace runs, dropping empty pieces. -/
def splitWsChars : List Char → List (List Char)
  | [] => []
  | c :: rest =>
    if isPyWs c then splitWsChars rest
    else
      match splitWsChars rest with
      | [] => [[c]]
      | w :: ws =>
        match rest with
        | [] => [[c]]
        | d :: _ => if isPyWs d then [c] :: w :: ws else (c :: w) :: ws

/-- Join word lists with single spaces: Python `" ".join(words)`. -/
def joinSpace : List (List Char) → List Char
  | [] => []
  | [w] => w
  | w :: ws => w ++ ' ' :: joinSpace ws

/-- `AutomationConverter._clean_target_name`: drop characters outside
word/whitespace/hyphen, normalise whitespace, keep the first 30 characters. -/
def cleanTargetName (text : String) : String :=
  let kept := text.data.filter fun c => isWordChar c ∨ isPyWs c ∨ c = '-'
  ⟨(joinSpace (splitWsChars kept)).take 30⟩

/-- `AutomationConverter._suggest_target_from_ocr` (the `action` argument is
unused by the source body). -/
def suggestTargetFromOcr (ocrText : String) (_a : PyAction) : String :=
  let cleaned := cleanTargetName ocrText
  let lower := pyLower cleaned
  if ["button", "btn", "click"].any (fun w => pyIn w lower) then
    pyStrip (pyReplace (pyReplace cleaned "button" "") "btn" "")
  else if ["menu", "nav", "link"].any (fun w => pyIn w lower) then cleaned
  else if ["input", "field", "text"].any (fun w => pyIn w lower) then "text_input"
  else cleaned

/-- `AutomationConverter._generate_fallback_target_name`. -/
def genFallbackTargetName (a : PyAction) : String :=
  let actionType := a.event.getD "element"
  let w := a.window.getD emptyWindow
  let app := w.app.getD "Unknown"
  if pyIn "localhost" (w.title.getD "") then pyTitleCase actionType ++ " Element"
  else app ++ " " ++ pyTitleCase actionType

/-- The position-based fallback block of `check_coordinates` for clicks
(learning_to_codex.py lines 71-90), including the
`detected_text or target` update. -/
def clickFallback (a : PyAction) (di : DetectionInfo) :
    Bool × String × String × DetectionInfo :=
  let windowTitle := (a.window.getD emptyWindow).title.getD ""
  let pos := a.rel_position.getD (0, 0)
  let target :=
    if pyIn "Learning Loop" windowTitle then
      if pos.2 < 3/10 then "top_area"
      else if pos.2 > 4/5 then "bottom_button"
      else if pos.1 < 1/2 ∧ 3/10 < pos.2 ∧ pos.2 < 7/10 then "left_control"
      else "main_area"
    else genFallbackTargetName a
  let detectedText :=
    match di.detected_text with
    | some s => if s ≠ "" then some s else some target
    | none => some target
  (true, target, "Coordinates look reasonable", { di with detected_text := detectedText })

/-- `AutomationConverter.check_coordinates`.  `action["event"]` raises
`KeyError` when the key is missing; the final line of the source returns the
undefined name `detection_inf`, which raises `NameError` at runtime. -/
def checkCoordinates (ocr : OcrOracle) (a : PyAction) :
    Except PyError (Bool × String × String × DetectionInfo) :=
  let di0 : DetectionInfo := ⟨none, "none", a.crop_screenshot⟩
  match a.event with
  | none => Except.error (PyError.keyError "event")
  | some ev =>
    if ev = "click" then
      match ocr a with
      | Except.ok ocrResult =>
        let di1 := { di0 with detected_text := some ocrResult }
        if ocrResult ≠ "" ∧ (pyStrip ocrResult).data.length > 2 ∧
            ¬ pyStartsWith (pyLower ocrResult) "something" = true then
          Except.ok (true, suggestTargetFromOcr ocrResult a, "OCR extracted target name",
            { di1 with ocr_confidence := "high" })
        else Except.ok (clickFallback a di1)
      | Except.error _ =>
        Except.ok (clickFallback a { di0 with ocr_confidence := "failed" })
    else if ev = "type" then
      Except.ok (true, "text_input", "Text field",
        { di0 with detected_text := some (a.text.getD "") })
    else if ev = "key" then
      let keyName := a.key.getD (a.text.getD "unknown")
      Except.ok (true, "key_" ++ keyName, "Key press: " ++ keyName,
        { di0 with detected_text := some keyName })
    else
      Except.error (PyError.nameError "detection_inf")

/-- `AutomationConverter.verify_window`. -/
def verifyWindow (a : PyAction) (target : String) : Bool × String :=
  let w := a.window.getD emptyWindow
  let app := w.app.getD "Unknown"
  let title := w.title.getD "Unknown"
  if app = "Google Chrome" then
    if pyIn "localhost" title then (true, "Local dev environment - " ++ target)
    else if pyIn "Claude" title then (true, "Claude interface - " ++ target)
    else (true, "Browser window - " ++ target)
  else if app = "Control Center" then (true, "System control - " ++ target)
  else (true, "App context - " ++ target)

/-- `AutomationConverter.test_compatibility`. -/
def testCompatibility (a : PyAction) (_target : String) : Bool × String :=
  let w := a.window.getD emptyWindow
  if w.alpha.getD 1 < 1/10 then (false, "Window too transparent")
  else
    let rp := a.rel_position.getD (0, 0)
    if rp.1 < 0 ∨ rp.1 > 1 ∨ rp.2 < 0 ∨ rp.2 > 1 then (false, "Position outside window")
    else if w.width.getD 0 < 100 ∨ w.height.getD 0 < 100 then (false, "Window too small")
    else (true, "Should work fine")

/-- `AutomationConverter.analyze_resolution`: the relative position is tested
against three reference screen sizes; the note strings render the rate. -/
def analyzeResolution (a : PyAction) (_target : String) : Bool × String :=
  let rp := a.rel_position.getD (0, 0)
  let testSizes : List (ℚ × ℚ) := [(1920, 1080), (2560, 1440), (3840, 2160)]
  let workingCount := (testSizes.filter fun sz =>
    decide (10 < rp.1 * sz.1 ∧ rp.1 * sz.1 < sz.1 - 10 ∧
            10 < rp.2 * sz.2 ∧ rp.2 * sz.2 < sz.2 - 10)).length
  let successRate : ℚ := (workingCount : ℚ) / (testSizes.length : ℚ)
  if successRate ≥ 4/5 then (true, "Works on most screens")
  else if successRate ≥ 3/5 then (true, "Might work on some screens")
  else (false, "Probably will not work well")

/-- `AutomationConverter.validate_position`. -/
def validatePosition (a : PyAction) (_target : String) : Bool × String :=
  let w := a.window.getD emptyWindow
  let app := w.app.getD ""
  let optionCount :=
    (if a.rel_position.isSome then 1 else 0) +
    (if app ≠ "" ∧ app ≠ "Unknown" then 1 else 0) +
    (if w.title.getD "" ≠ "" ∧ w.title.getD "" ≠ "Unknown" then 1 else 0) +
    (if a.event.getD "" ≠ "" then 1 else 0)
  let confidence : ℚ := if optionCount ≥ 3 then 9/10 else if optionCount = 2 then 7/10 else 2/5
  if confidence ≥ 7/10 then (true, "Multiple targeting options")
  else (false, "Limited targeting options")

structure SummaryR where
  checks_passed : Nat
  total_checks : Nat
  success_rate : ℚ
  reliable : Bool
  confidence : String
deriving DecidableEq

structure CheckResults where
  target : String
  detection_info : DetectionInfo
  checks : List (String × Bool × String)
  summary : SummaryR
deriving DecidableEq

/-- Python `sum(checks_passed)` over a list of booleans. -/
def countPassed (l : List Bool) : Nat := (l.filter id).length

/-- The summary dict built in the click branch of `run_checks`
(threshold 4 of 5; confidence high at 5, medium at 4 and above, else low). -/
def clickSummary (cks : List Bool) : SummaryR :=
  let passed := countPassed cks
  ⟨passed, cks.length, (passed : ℚ) / (cks.length : ℚ), decide (passed ≥ 4),
   if passed = 5 then "high" else if passed ≥ 4 then "medium" else "low"⟩

/-- The summary dict built in the type/key branch of `run_checks`. -/
def keyboardSummary (cks : List Bool) : SummaryR :=
  let passed := countPassed cks
  ⟨passed, cks.length, (passed : ℚ) / (cks.length : ℚ), decide (passed ≥ 2),
   if passed = 3 then "high" else if passed ≥ 2 then "medium" else "low"⟩

/-- The summary dict built in the unknown-type branch of `run_checks`. -/
def unknownSummary (cks : List Bool) : SummaryR :=
  let passed := countPassed cks
  ⟨passed, cks.length, (passed : ℚ) / (cks.length : ℚ), decide (passed ≥ 1),
   if passed ≥ 2 then "medium" else "low"⟩

/-- `AutomationConverter.run_checks`. -/
def runChecks (ocr : OcrOracle) (a : PyAction) : Except PyError CheckResults :=
  let actionType := a.event.getD "unknown"
  match checkCoordinates ocr a with
  | Except.error e => Except.error e
  | Except.ok (coordsOk, target, coordsReason, detectionInfo) =>
    let wr := verifyWindow a target
    if actionType = "click" then
      let cr := testCompatibility a target
      let rr := analyzeResolution a target
      let pr := validatePosition a target
      Except.ok ⟨target, detectionInfo,
        [("coordinates", coordsOk, coordsReason), ("window", wr.1, wr.2),
         ("compatibility", cr.1, cr.2), ("resolution", rr.1, rr.2),
         ("position", pr.1, pr.2)],
        clickSummary [coordsOk, wr.1, cr.1, rr.1, pr.1]⟩
    else if actionType = "type" ∨ actionType = "key" then
      let tc : Bool × String :=
        if actionType = "type" then
          let textContent := a.text.getD ""
          if textContent = "" ∨ (pyStrip textContent).data.length = 0 then
            (false, "No text content")
          else (true, "Text input available")
        else
          let keyValue := a.key.getD (a.text.getD "")
          if keyValue = "" then (false, "No key specified")
          else (true, "Text input available")
      Except.ok ⟨target, detectionInfo,
        [("coordinates", coordsOk, coordsReason), ("window", wr.1, wr.2),
         ("text_content", tc.1, tc.2)],
        keyboardSummary [coordsOk, wr.1, tc.1]⟩
    else
      Except.ok ⟨target, detectionInfo,
        [("coordinates", coordsOk, coordsReason), ("window", wr.1, wr.2)],
        unknownSummary [coordsOk, wr.1]⟩

structure AutoStep where
  step : Nat
  action : String
  target : String
  detected_text : Option String
  actor : String
  app : String
  window_title : String
  confidence : String
  checks_passed : Nat
  verified : Bool
  crop_screenshot : Option String
  ocr_confidence_field : Option String
  coordinates : Option (ℚ × ℚ)
  click_type : Option String
  text : Option String
  input_type : Option String
  key : Option String
deriving DecidableEq

/-- `AutomationConverter.create_step`: unreliable results yield no step;
otherwise the step dict is assembled (reading `action["event"]`, which raises
on a missing key, though that point is unreachable after `run_checks`). -/
def createStep (a : PyAction) (stepNumber : Nat) (cr : CheckResults) :
    Except PyError (Option AutoStep) :=
  if cr.summary.reliable = false then Except.ok none
  else
    match a.event with
    | none => Except.error (PyError.keyError "event")
    | some ev =>
      let w := a.window.getD emptyWindow
      let di := cr.detection_info
      let base : AutoStep :=
        ⟨stepNumber, ev, cr.target, di.detected_text, "automation",
         w.app.getD "Unknown", w.title.getD "Unknown",
         cr.summary.confidence, cr.summary.checks_passed, true,
         (match di.crop_screenshot with
          | some s => if s ≠ "" then some s else none
          | none => none),
         (if di.ocr_confidence ≠ "" then some di.ocr_confidence else none),
         none, none, none, none, none⟩
      if ev = "click" then
        Except.ok (some { base with
          coordinates := some (a.rel_position.getD (0, 0))
          click_type := some "left_click" })
      else if ev = "type" then
        Except.ok (some { base with
          text := some (a.text.getD "")
          input_type := some "text_entry" })
      else if ev = "key" then
        Except.ok (some { base with
          key := some (a.key.getD (a.text.getD "unknown"))
          input_type := some "keyboard" })
      else Except.ok (some base)

structure QualityReport where
  total_actions : Nat
  reliable_steps : Nat
  unreliable_steps : Nat
  failed_checks : List (String × Nat)
deriving DecidableEq

/-- Increment the per-check failure counter, inserting new names at the end
(Python dict insertion order). -/
def bumpCount : List (String × Nat) → String → List (String × Nat)
  | [], k => [(k, 1)]
  | (k0, n) :: rest, k =>
    if k0 = k then (k0, n + 1) :: rest else (k0, n) :: bumpCount rest k

/-- Tally the names of failed checks into the report counters. -/
def tallyFailed (fc : List (String × Nat)) (checks : List (String × Bool × String)) :
    List (String × Nat) :=
  checks.foldl (fun acc c => if c.2.1 = false then bumpCount acc c.1 else acc) fc

/-- The per-action loop of `convert_to_automation`
(learning_to_codex.py lines 443-460), starting at step number 1. -/
def convertLoop (ocr : OcrOracle) :
    List PyAction → Nat → List AutoStep → QualityReport →
    Except PyError (List AutoStep × QualityReport)
  | [], _, steps, rep => Except.ok (steps, rep)
  | a :: rest, i, steps, rep =>
    match runChecks ocr a with
    | Except.error e => Except.error e
    | Except.ok results =>
      match createStep a i results with
      | Except.error e => Except.error e
      | Except.ok (some st) =>
        convertLoop ocr rest (i + 1) (steps ++ [st])
          { rep with reliable_steps := rep.reliable_steps + 1 }
      | Except.ok none =>
        convertLoop ocr rest (i + 1) steps
          { rep with
              unreliable_steps := rep.unreliable_steps + 1
              failed_checks := tallyFailed rep.failed_checks results.checks }

/-- The classification core of `convert_to_automation`: the empty-session
guard followed by the per-action loop (file loading and saving are external). -/
def convertToAutomationCore (ocr : OcrOracle) (actions : List PyAction) :
    Except PyError (List AutoStep × QualityReport) :=
  if actions = [] then Except.error (PyError.valueError "No actions found")
  else convertLoop ocr actions 1 [] ⟨actions.length, 0, 0, []⟩

/-! ### vision_fusion.py — match quality (claim C2)

`calculate_match_quality` falls back to `difflib.SequenceMatcher(...).ratio()`;
the matcher is embedded below (no junk handling: autojunk only activates for
strings of 200+ characters, far beyond the labels involved). -/

/-- Indices of a character in a list, in increasing order starting at `j`. -/
def charIndicesFrom : List Char → Char → Nat → List Nat
  | [], _, _ => []
  | d :: rest, c, j =>
    if d = c then j :: charIndicesFrom rest c (j + 1) else charIndicesFrom rest c (j + 1)

/-- The difflib `b2j` table queried at one character. -/
def charIndices (b : List Char) (c : Char) : List Nat := charIndicesFrom b c 0

/-- Lookup in the difflib `j2len` row with default 0. -/
def lookupLen (m : List (Nat × Nat)) (k : Nat) : Nat :=
  ((m.find? (fun p => p.1 == k)).map Prod.snd).getD 0

/-- `SequenceMatcher.find_longest_match(alo, ahi, blo, bhi)` without junk:
returns `(i, j, size)`.  The Python lookup `j2len.get(j-1, 0)` at `j = 0`
reads key `-1`, never present, hence the explicit `j = 0` case. -/
def findLongestMatch (a b : List Char) (alo ahi blo bhi : Nat) : Nat × Nat × Nat :=
  ((List.range' alo (ahi - alo)).foldl
    (fun (st : List (Nat × Nat) × Nat × Nat × Nat) i =>
      let j2len := st.1
      let js := (charIndices b (a.getD i ' ')).filter fun j => decide (blo ≤ j ∧ j < bhi)
      js.foldl
        (fun (st2 : List (Nat × Nat) × Nat × Nat × Nat) j =>
          let k := if j = 0 then 1 else lookupLen j2len (j - 1) + 1
          let best2 := if k > st2.2.2.2 then (i + 1 - k, j + 1 - k, k) else st2.2
          ((j, k) :: st2.1, best2))
        ([], st.2))
    ([], (alo, blo, 0))).2

/-- Total size of all matching blocks of `SequenceMatcher.get_matching_blocks`
on the window `[alo, ahi) x [blo, bhi)`; the recursion splits around the
longest match, so the summed fuel of both windows strictly decreases. -/
def matchingTotal (a b : List Char) : Nat → Nat → Nat → Nat → Nat → Nat
  | 0, _, _, _, _ => 0
  | Nat.succ fuel, alo, ahi, blo, bhi =>
    let m := findLongestMatch a b alo ahi blo bhi
    if m.2.2 = 0 then 0
    else
      matchingTotal a b fuel alo m.1 blo m.2.1 + m.2.2 +
        matchingTotal a b fuel (m.1 + m.2.2) ahi (m.2.1 + m.2.2) bhi

/-- `SequenceMatcher(None, a, b).ratio()`: `2.0 * M / T`, and 1.0 when both
strings are empty. -/
def sequenceSimilarity (a b : List Char) : ℚ :=
  if a.length + b.length = 0 then 1
  else (2 * (matchingTotal a b (a.length + b.length + 1) 0 a.length 0 b.length) : ℚ) /
        ((a.length + b.length : Nat) : ℚ)

/-- `calculate_match_quality(target, label)` from vision_fusion.py: exact
match 1.0; else containment `0.9 + (len(target)/len(label))*0.1`; else the
sequence similarity. -/
def calculateMatchQuality (target label : List Char) : ℚ :=
  if target = label then 1
  else if inChars target label then
    9/10 + ((target.length : ℚ) / (label.length : ℚ)) * (1/10)
  else sequenceSimilarity target label

/-! ### vision_fusion.py — treasure-map blocks and fusion (claims C7, C8) -/

structure VBox where
  x : ℚ
  y : ℚ
  w : ℚ
  h : ℚ
deriving DecidableEq

structure VBlock where
  btype : String
  label : String
  position : VBox
  source : String
deriving DecidableEq

/-- `iou(boxA, boxB)` from vision_fusion.py (the `1e-6` term exactly). -/
def iouQ (A B : VBox) : ℚ :=
  let xA := max A.x B.x
  let yA := max A.y B.y
  let xB := min (A.x + A.w) (B.x + B.w)
  let yB := min (A.y + A.h) (B.y + B.h)
  let interArea := max 0 (xB - xA) * max 0 (yB - yA)
  interArea / (A.w * A.h + B.w * B.h - interArea + 1/1000000)

/-- `is_center_near(boxA, boxB, threshold)`: the source tests
`sqrt(dx^2 + dy^2) < threshold`, equivalent over the rationals (threshold 30
nonnegative) to `dx^2 + dy^2 < threshold^2` as written here. -/
def isCenterNear (A B : VBox) (threshold : ℚ) : Bool :=
  let cAx := A.x + A.w / 2
  let cAy := A.y + A.h / 2
  let cBx := B.x + B.w / 2
  let cBy := B.y + B.h / 2
  decide ((cAx - cBx) ^ 2 + (cAy - cBy) ^ 2 < threshold ^ 2)

/-- The pair test of the fusion loop (vision_fusion.py lines 133-148): the
cv box is normalised by the image size for the IoU test, and the ocr box is
scaled to pixels for the centre test with threshold 30. -/
def fusePairMatches (width height : ℚ) (ocrB cvB : VBlock) : Bool :=
  let cvNorm : VBox := ⟨cvB.position.x / width, cvB.position.y / height,
                        cvB.position.w / width, cvB.position.h / height⟩
  let ocrPix : VBox := ⟨ocrB.position.x * width, ocrB.position.y * height,
                        ocrB.position.w * width, ocrB.position.h * height⟩
  decide (iouQ ocrB.position cvNorm > 1/20) || isCenterNear ocrPix cvB.position 30

/-- The merged entry appended for a matching pair. -/
def overlapEntry (ocrB : VBlock) : VBlock :=
  ⟨"block", ocrB.label, ocrB.position, "overlapping"⟩

/-- Membership test in a list of indices (Python `in` on the matched sets). -/
def memIdx (n : Nat) (l : List Nat) : Bool := l.any fun m => m == n

/-- State of the fusion double loop: matched ocr indices, matched cv indices,
and the accumulated `final_blocks`. -/
abbrev FuseState := List Nat × List Nat × List VBlock

/-- The inner loop `for j, cv in enumerate(cv_blocks)` for a fixed ocr entry
`(i, ocrB)`, starting at cv index `j`. -/
def fuseInner (width height : ℚ) (i : Nat) (ocrB : VBlock) :
    Nat → List VBlock → FuseState → FuseState
  | _, [], st => st
  | j, cvB :: rest, st =>
    fuseInner width height i ocrB (j + 1) rest
      (if fusePairMatches width height ocrB cvB then
        (i :: st.1, j :: st.2.1, st.2.2 ++ [overlapEntry ocrB])
      else st)

/-- The outer loop `for i, ocr in enumerate(ocr_blocks)`, starting at ocr
index `i`. -/
def fuseOuter (width height : ℚ) (cvBlocks : List VBlock) :
    Nat → List VBlock → FuseState → FuseState
  | _, [], st => st
  | i, ocrB :: rest, st =>
    fuseOuter width height cvBlocks (i + 1) rest
      (fuseInner width height i ocrB 0 cvBlocks st)

/-- Append the unmatched entries of a list, walking it with its indices
(the loops at vision_fusion.py lines 160-166). -/
def unmatchedFrom (matched : List Nat) : Nat → List VBlock → List VBlock
  | _, [] => []
  | i, b :: rest =>
    if memIdx i matched then unmatchedFrom matched (i + 1) rest
    else b :: unmatchedFrom matched (i + 1) rest

/-- The fusion core of `generate_combined_treasure_map` (lines 127-166):
the matching double loop followed by the two unmatched-append loops. -/
def generateCombinedCore (width height : ℚ) (ocrBlocks cvBlocks : List VBlock) :
    List VBlock :=
  let st := fuseOuter width height cvBlocks 0 ocrBlocks ([], [], [])
  st.2.2 ++ unmatchedFrom st.1 0 ocrBlocks ++ unmatchedFrom st.2.1 0 cvBlocks

/-! ### vision_fusion.py — `_build_ocr_blocks` (claim C8) -/

structure RawTextBlock where
  text : String
  bbox : List ℚ
deriving DecidableEq

/-- `_build_ocr_blocks(ocr_result, normalize_topdown)`: keep blocks with
non-empty stripped text and a 4-element bbox; in top-down mode replace y by
`1 - y - h`. -/
def buildOcrBlocks (ocrTextBlocks : List RawTextBlock) (normalizeTopdown : Bool) :
    List VBlock :=
  ocrTextBlocks.filterMap fun b =>
    let t := pyStrip b.text
    match b.bbox with
    | [x, y, w, h] =>
      if t ≠ "" then
        some ⟨"text", t, ⟨x, if normalizeTopdown then 1 - y - h else y, w, h⟩, "ocr"⟩
      else none
    | _ => none

/-- Decidable statement that a box lies in the unit square. -/
def boxInUnit (p : VBox) : Bool :=
  decide (0 ≤ p.x ∧ p.x ≤ 1 ∧ 0 ≤ p.y ∧ p.y ≤ 1 ∧
          0 ≤ p.w ∧ p.w ≤ 1 ∧ 0 ≤ p.h ∧ p.h ≤ 1)

/-! ### run_ocr_mac_native.py — `reconstruct_text_from_ocr` (claim C9) -/

/-- A raw Vision detection: the source reads `b["text"]`, `b["bbox"][0]` and
`b["bbox"][1]`. -/
structure RawDetection where
  text : String
  bboxX : ℚ
  bboxY : ℚ
deriving DecidableEq

/-- A filtered, rounded block of the reconstruction. -/
structure OcrNB where
  text : String
  x : ℚ
  y : ℚ
deriving DecidableEq

/-- Round half to even at integer precision (Python `round` on the exact
value). -/
def roundHalfEven (q : ℚ) : ℤ :=
  let f := ⌊q⌋
  let r := q - (f : ℚ)
  if r < 1/2 then f
  else if r > 1/2 then f + 1
  else if f % 2 = 0 then f else f + 1

/-- Python `round(q, 3)`. -/
def round3 (q : ℚ) : ℚ := (roundHalfEven (q * 1000) : ℚ) / 1000

/-- The filter-and-normalise comprehension of `reconstruct_text_from_ocr`
(lines 194-202). -/
def normalizeDetections (raw : List RawDetection) : List OcrNB :=
  raw.filterMap fun b =>
    if b.text ≠ "" ∧ pyStrip b.text ≠ "" then
      some ⟨pyStrip b.text, round3 b.bboxX, round3 b.bboxY⟩
    else none

/-- `math.isclose(a, b, abs_tol=t)` with the default `rel_tol=1e-9`. -/
def pyIsClose (a b tol : ℚ) : Bool :=
  decide (|a - b| ≤ max ((1/1000000000) * max |a| |b|) tol)

/-- One line under construction: the anchor `y` (from its first block) and
the accumulated blocks. -/
structure LineG where
  y : ℚ
  blocks : List OcrNB
deriving DecidableEq

/-- Place one block into the first line whose anchor is close to its y, or
append a new line at the end (lines 205-214 of the source). -/
def placeInLines (yTol : ℚ) (b : OcrNB) : List LineG → List LineG
  | [] => [⟨b.y, [b]⟩]
  | ln :: rest =>
    if pyIsClose b.y ln.y yTol then ⟨ln.y, ln.blocks ++ [b]⟩ :: rest
    else ln :: placeInLines yTol b rest

/-- The grouping loop over all blocks. -/
def groupIntoLines (yTol : ℚ) (blocks : List OcrNB) : List LineG :=
  blocks.foldl (fun lns b => placeInLines yTol b lns) []

/-- Stable descending sort by y: `sorted(blocks, key=lambda b: -b["y"])`. -/
def sortDescY (l : List OcrNB) : List OcrNB :=
  l.insertionSort fun p q => p.y ≥ q.y

/-- Stable ascending sort by x within a line. -/
def sortAscX (l : List OcrNB) : List OcrNB :=
  l.insertionSort fun p q => p.x ≤ q.x

/-- Render the tail of a line given the running `prev_x`; a single space is
inserted exactly when the gap exceeds `xTol`, and `prev_x` advances by the
crude width estimate `len(text) * 0.01` (lines 220-228). -/
def renderRest (xTol : ℚ) (prevX : ℚ) : List OcrNB → String
  | [] => ""
  | b :: rest =>
    (if b.x - prevX > xTol then " " else "") ++ b.text ++
      renderRest xTol (b.x + (b.text.data.length : ℚ) * (1/100)) rest

/-- Render one line from its x-sorted blocks. -/
def renderLine (xTol : ℚ) : List OcrNB → String
  | [] => ""
  | b :: rest => b.text ++ renderRest xTol (b.x + (b.text.data.length : ℚ) * (1/100)) rest

/-- `reconstruct_text_from_ocr(raw_blocks, y_tolerance, x_tolerance)`. -/
def reconstructTextFromOcr (raw : List RawDetection)
    (yTol : ℚ := 3/200) (xTol : ℚ := 1/50) : List String :=
  let lines := groupIntoLines yTol (sortDescY (normalizeDetections raw))
  lines.map fun ln => renderLine xTol (sortAscX ln.blocks)

/-! ### Concrete instances used by the theorems below -/

/-- An OCR oracle that always raises (a failing OCR backend). -/
def ocrBoom : OcrOracle := fun _ => Except.error (PyError.valueError "ocr backend fault")

/-- An action record missing the `event` key. -/
def noEventAction : PyAction := ⟨none, none, none, none, none, none⟩

/-- A recorded click in a well-formed window. -/
def clickActionExample : PyAction :=
  ⟨some "click", none, none, some (1/2, 1/2),
   some ⟨some "TestApp", some "Doc", none, some 800, some 600⟩, none⟩

/-- The check results computed by `runChecks` on `clickActionExample`. -/
def crExample : CheckResults :=
  (runChecks ocrBoom clickActionExample).toOption.getD
    ⟨"", ⟨none, "", none⟩, [], ⟨0, 0, 0, false, ""⟩⟩

/-- Decidable precondition on a raw OCR block: bbox coordinates in the unit
interval and the box not extending past the top/bottom edge. -/
def rawBoxOk (b : RawTextBlock) : Bool :=
  match b.bbox with
  | [x, y, w, hh] =>
    decide (0 ≤ x ∧ x ≤ 1 ∧ 0 ≤ y ∧ 0 ≤ w ∧ w ≤ 1 ∧ 0 ≤ hh ∧ hh ≤ 1 ∧ y + hh ≤ 1)
  | _ => true

/-- A normalised OCR text block and a pixel-space cv component over a
1000 x 1000 image whose boxes coincide. -/
def ocrBlockExample : VBlock := ⟨"text", "Send", ⟨4/10, 8/10, 1/10, 1/20⟩, "ocr"⟩

def cvBlockExample : VBlock := ⟨"ui", "btn", ⟨400, 800, 100, 50⟩, "cv"⟩

instance : IsTotal OcrNB fun p q => p.y ≥ q.y :=
  ⟨fun a b => le_total b.y a.y⟩

instance : IsTrans OcrNB fun p q => p.y ≥ q.y :=
  ⟨fun _ _ _ h1 h2 => le_trans h2 h1⟩

/-! ## Theorems -/

/-- C5: with a recorded last click in the context, a click at squared pixel
distance at most 4 (distance at most 2px) is suppressed; at squared distance
below 225 (distance below 15px) with the same lowercased-and-stripped target
it is suppressed; otherwise it is executed and the last-click position, target
and timestamp are overwritten. -/
theorem claim_C5_duplicate_suppression (fx fy lx ly : Int) (tgt lt : String)
    (now : ℚ) (ctx : TaskContext)
    (hc : ctx.last_click_coords = some (lx, ly))
    (ht : ctx.last_click_target = some lt) :
    ((fx - lx) ^ 2 + (fy - ly) ^ 2 ≤ 4 →
      (directClickGuard fx fy tgt now ctx).1 = false) ∧
    ((fx - lx) ^ 2 + (fy - ly) ^ 2 < 225 → normTarget tgt = normTarget lt →
      (directClickGuard fx fy tgt now ctx).1 = false) ∧
    (4 < (fx - lx) ^ 2 + (fy - ly) ^ 2 →
      (225 ≤ (fx - lx) ^ 2 + (fy - ly) ^ 2 ∨ normTarget tgt ≠ normTarget lt) →
      (directClickGuard fx fy tgt now ctx).1 = true ∧
      (directClickGuard fx fy tgt now ctx).2.last_click_coords = some (fx, fy) ∧
      (directClickGuard fx fy tgt now ctx).2.last_click_target = some tgt ∧
      (directClickGuard fx fy tgt now ctx).2.last_click_time = some now) := by
  refine ⟨?_, ?_, ?_⟩
  · intro h
    simp [directClickGuard, shouldClickB, hc, ht, h]
  · intro h1 h2
    by_cases h0 : (fx - lx) ^ 2 + (fy - ly) ^ 2 ≤ 4
    · simp [directClickGuard, shouldClickB, hc, ht, h0]
    · simp [directClickGuard, shouldClickB, hc, ht, h0, h1, h2]
  · intro h1 h2
    have h0 : ¬ ((fx - lx) ^ 2 + (fy - ly) ^ 2 ≤ 4) := by omega
    have hcond : ¬ ((fx - lx) ^ 2 + (fy - ly) ^ 2 < 225 ∧ normTarget tgt = normTarget lt) := by
      rcases h2 with h | h
      · exact fun hh => absurd hh.1 (by omega)
      · exact fun hh => h hh.2
    simp [directClickGuard, shouldClickB, hc, ht, h0, hcond]

/-- Witness for C5 at distance 10px with a different target: executed and the
context overwritten. -/
theorem claim_C5_witness :
    (directClickGuard 110 100 "Open" 2 ⟨some (100, 100), some "Save", some 1, none⟩).1 = true ∧
    (directClickGuard 110 100 "Open" 2
      ⟨some (100, 100), some "Save", some 1, none⟩).2.last_click_coords = some (110, 100) ∧
    (directClickGuard 110 100 "Open" 2
      ⟨some (100, 100), some "Save", some 1, none⟩).2.last_click_target = some "Open" ∧
    (directClickGuard 110 100 "Open" 2
      ⟨some (100, 100), some "Save", some 1, none⟩).2.last_click_time = some 2 :=
  (claim_C5_duplicate_suppression 110 100 100 100 "Open" "Save" 2
      ⟨some (100, 100), some "Save", some 1, none⟩ rfl rfl).2.2 (by decide)
    (Or.inr (by decide))

/-- C10: whenever the duplicate-click guard suppresses a click, the
last-click coordinates, target and time are left unchanged and only the
skipped target is recorded. -/
theorem claim_C10_suppression_frame (fx fy : Int) (tgt : String) (now : ℚ)
    (ctx : TaskContext)
    (h : (directClickGuard fx fy tgt now ctx).1 = false) :
    (directClickGuard fx fy tgt now ctx).2.last_click_coords = ctx.last_click_coords ∧
    (directClickGuard fx fy tgt now ctx).2.last_click_target = ctx.last_click_target ∧
    (directClickGuard fx fy tgt now ctx).2.last_click_time = ctx.last_click_time ∧
    (directClickGuard fx fy tgt now ctx).2.last_skipped_target = some tgt := by
  by_cases hb : shouldClickB fx fy tgt ctx
  · simp [directClickGuard, hb] at h
  · simp [directClickGuard, hb]

/-- Witness for C10 at a suppressed 1px-distance click. -/
theorem claim_C10_witness :
    (directClickGuard 100 100 "Open" 2
      ⟨some (100, 101), some "Save", some 1, none⟩).2.last_click_coords = some (100, 101) ∧
    (directClickGuard 100 100 "Open" 2
      ⟨some (100, 101), some "Save", some 1, none⟩).2.last_click_target = some "Save" ∧
    (directClickGuard 100 100 "Open" 2
      ⟨some (100, 101), some "Save", some 1, none⟩).2.last_click_time = some 1 ∧
    (directClickGuard 100 100 "Open" 2
      ⟨some (100, 101), some "Save", some 1, none⟩).2.last_skipped_target = some "Open" :=
  claim_C10_suppression_frame 100 100 "Open" 2
    ⟨some (100, 101), some "Save", some 1, none⟩ (by decide)

/-- C6: placeholder resolution turns the field `Hello {name}` with context
`{name: Mia}` into `Hello Mia` and such a step is executed; and whenever a
resolved string field still contains braces (in particular an unresolved
placeholder), the loop aborts before execution. -/
theorem claim_C6_placeholders (step : StepDict) (ctx : VarContext) (k s : String)
    (hmem : (k, StepVal.pstr s) ∈ resolveStepPlaceholders step ctx)
    (hl : inChars ['\x7b'] s.data = true) (hr : inChars ['\x7d'] s.data = true) :
    pingPongStepGate step ctx = StepOutcome.aborted (resolveStepPlaceholders step ctx) ∧
    resolveField [("name", some "Mia")] "Hello \x7bname\x7d" = "Hello Mia" ∧
    pingPongStepGate [("target", StepVal.pstr "Hello \x7bname\x7d")] [("name", some "Mia")] =
      StepOutcome.executed [("target", StepVal.pstr "Hello Mia")] := by
  have hbr : hasUnresolvedBraces (resolveStepPlaceholders step ctx) = true := by
    unfold hasUnresolvedBraces
    rw [List.any_eq_true]
    refine ⟨(k, StepVal.pstr s), hmem, ?_⟩
    simp [hl, hr]
  refine ⟨?_, by decide, by decide⟩
  unfold pingPongStepGate
  simp [hbr]

/-- Witness for C6: a step field with an unknown placeholder aborts the run
before execution. -/
theorem claim_C6_witness :
    pingPongStepGate [("target", StepVal.pstr "Hello \x7bunknown\x7d")]
        [("name", some "Mia")] =
      StepOutcome.aborted (resolveStepPlaceholders
        [("target", StepVal.pstr "Hello \x7bunknown\x7d")] [("name", some "Mia")]) :=
  (claim_C6_placeholders _ _ "target" "Hello \x7bunknown\x7d"
    (by decide) (by decide) (by decide)).1

/-- C4 (code slip): for an action whose event type is neither click, type nor
key, `check_coordinates` returns the undefined name `detection_inf`, so
`run_checks` raises `NameError` instead of classifying the action with the
coordinate and window checks. -/
theorem claim_C4_unknown_type_crash (ocr : OcrOracle) :
    runChecks ocr ⟨some "scroll", none, none, none, none, none⟩ =
      Except.error (PyError.nameError "detection_inf") := rfl

/-- Counterexample to C3: an exception raised inside `check_coordinates`
(the `KeyError` from `action["event"]` on a record with no event key)
propagates out of `run_checks` and out of the conversion loop, instead of
being recorded as a failed check. -/
theorem claim_C3_counterexample :
    runChecks ocrBoom noEventAction = Except.error (PyError.keyError "event") ∧
    convertToAutomationCore ocrBoom [noEventAction] =
      Except.error (PyError.keyError "event") :=
  ⟨rfl, rfl⟩

/-- The fallback path of `check_coordinates` never touches `ocr_confidence`. -/
theorem clickFallback_ocr_conf (a : PyAction) (di : DetectionInfo) :
    ((clickFallback a di).2.2.2).ocr_confidence = di.ocr_confidence := rfl

/-- For click actions `check_coordinates` always returns, whatever the OCR
oracle does: the only guarded call is the OCR extraction. -/
theorem checkCoordinates_click_ok (ocr : OcrOracle) (a : PyAction)
    (hev : a.event = some "click") :
    ∃ t, checkCoordinates ocr a = Except.ok t := by
  unfold checkCoordinates
  rw [hev]
  cases hoc : ocr a with
  | ok s =>
    dsimp only
    split
    · split
      · exact ⟨_, rfl⟩
      · exact ⟨_, rfl⟩
    · next h => exact absurd rfl h
  | error e => exact ⟨_, rfl⟩

/-- Shape of `run_checks` on a click action, in terms of the tuple returned
by `check_coordinates`. -/
theorem runChecks_click_shape (ocr : OcrOracle) (a : PyAction)
    (t : Bool × String × String × DetectionInfo)
    (hev : a.event = some "click")
    (hcc : checkCoordinates ocr a = Except.ok t) :
    runChecks ocr a = Except.ok ⟨t.2.1, t.2.2.2,
      [("coordinates", t.1, t.2.2.1),
       ("window", (verifyWindow a t.2.1).1, (verifyWindow a t.2.1).2),
       ("compatibility", (testCompatibility a t.2.1).1, (testCompatibility a t.2.1).2),
       ("resolution", (analyzeResolution a t.2.1).1, (analyzeResolution a t.2.1).2),
       ("position", (validatePosition a t.2.1).1, (validatePosition a t.2.1).2)],
      clickSummary [t.1, (verifyWindow a t.2.1).1, (testCompatibility a t.2.1).1,
        (analyzeResolution a t.2.1).1, (validatePosition a t.2.1).1]⟩ := by
  obtain ⟨c, tg, r, di⟩ := t
  unfold runChecks
  rw [hcc, hev]
  simp

/-- Amended C3: an exception thrown by the OCR extraction for a click action
is caught inside `check_coordinates`, recorded as OCR failure, and the
classification of the action completes. -/
theorem claim_C3_amended_ocr_contained (ocr : OcrOracle) (a : PyAction) (e : PyError)
    (hev : a.event = some "click") (hocr : ocr a = Except.error e) :
    checkCoordinates ocr a =
      Except.ok (clickFallback a ⟨none, "failed", a.crop_screenshot⟩) ∧
    ∃ cr, runChecks ocr a = Except.ok cr ∧
      cr.detection_info.ocr_confidence = "failed" := by
  have hcc : checkCoordinates ocr a =
      Except.ok (clickFallback a ⟨none, "failed", a.crop_screenshot⟩) := by
    unfold checkCoordinates
    rw [hev, hocr]
    simp
  refine ⟨hcc, ?_⟩
  refine ⟨_, runChecks_click_shape ocr a _ hev hcc, ?_⟩
  exact clickFallback_ocr_conf a ⟨none, "failed", a.crop_screenshot⟩

/-- Witness for the amended C3 at a concrete click action and a raising
oracle. -/
theorem claim_C3_amended_witness :
    checkCoordinates ocrBoom clickActionExample =
      Except.ok (clickFallback clickActionExample ⟨none, "failed", none⟩) ∧
    ∃ cr, runChecks ocrBoom clickActionExample = Except.ok cr ∧
      cr.detection_info.ocr_confidence = "failed" :=
  claim_C3_amended_ocr_contained ocrBoom clickActionExample
    (PyError.valueError "ocr backend fault") rfl rfl

/-- The click summary of `run_checks`: confidence high exactly at 5 passes,
reliable and medium at 4, unreliable below 4. -/
theorem clickSummary_thresholds (l : List Bool) :
    ((clickSummary l).checks_passed = 5 → (clickSummary l).confidence = "high") ∧
    ((clickSummary l).checks_passed = 4 →
      (clickSummary l).reliable = true ∧ (clickSummary l).confidence = "medium") ∧
    ((clickSummary l).checks_passed ≤ 3 → (clickSummary l).reliable = false) := by
  unfold clickSummary
  dsimp only
  refine ⟨?_, ?_, ?_⟩
  · intro h
    rw [if_pos h]
  · intro h
    constructor
    · rw [h]
      rfl
    · rw [h]
      rfl
  · intro h
    rw [decide_eq_false_iff_not]
    omega

/-- An unreliable check result produces no automation step. -/
theorem createStep_unreliable (a : PyAction) (n : Nat) (cr : CheckResults)
    (h : cr.summary.reliable = false) : createStep a n cr = Except.ok none := by
  unfold createStep
  rw [h]
  simp

/-- C1: for a click action classified by `run_checks`, 5 passed checks give
confidence high; exactly 4 give reliable with confidence medium; 3 or fewer
give unreliable and `create_step` returns no step. -/
theorem claim_C1_click_thresholds (ocr : OcrOracle) (a : PyAction) (n : Nat)
    (cr : CheckResults) (hev : a.event = some "click")
    (hrc : runChecks ocr a = Except.ok cr) :
    (cr.summary.checks_passed = 5 → cr.summary.confidence = "high") ∧
    (cr.summary.checks_passed = 4 →
      cr.summary.reliable = true ∧ cr.summary.confidence = "medium") ∧
    (cr.summary.checks_passed ≤ 3 →
      cr.summary.reliable = false ∧ createStep a n cr = Except.ok none) := by
  obtain ⟨t, hcc⟩ := checkCoordinates_click_ok ocr a hev
  rw [runChecks_click_shape ocr a t hev hcc] at hrc
  injection hrc with h
  have hcr : cr = _ := h.symm
  subst hcr
  refine ⟨(clickSummary_thresholds _).1, (clickSummary_thresholds _).2.1, ?_⟩
  intro h3
  have hrel := (clickSummary_thresholds _).2.2 h3
  exact ⟨hrel, createStep_unreliable a n _ hrel⟩

/-- Witness for C1: a concrete click action passing all 5 checks has
confidence high. -/
theorem claim_C1_witness :
    crExample.summary.checks_passed = 5 ∧ crExample.summary.confidence = "high" :=
  ⟨by with_unfolding_all decide,
   (claim_C1_click_thresholds ocrBoom clickActionExample 1 crExample
     rfl (by with_unfolding_all rfl)).1 (by with_unfolding_all decide)⟩

/-- Counterexample to C2: `similarity("saving", "save")` is 0.6, not above
0.9, because neither string contains the other, so the sequence-matcher
ratio applies. -/
theorem claim_C2_counterexample :
    calculateMatchQuality "saving".data "save".data = 3/5 ∧
    ¬ (calculateMatchQuality "saving".data "save".data > 9/10) := by
  constructor
  · with_unfolding_all decide
  · with_unfolding_all decide

/-- Containment bounds the target length by the label length. -/
theorem inChars_length_le (t l : List Char) (h : inChars t l = true) :
    t.length ≤ l.length := by
  unfold inChars at h
  rw [List.any_eq_true] at h
  obtain ⟨i, _, hbeq⟩ := h
  have heq : (l.drop i).take t.length = t := eq_of_beq hbeq
  have hlen := congrArg List.length heq
  rw [List.length_take, List.length_drop] at hlen
  omega

/-- Amended C2: equal strings score exactly 1.0; a non-empty target that is a
strict substring of the label scores `0.9 + (len(target)/len(label))*0.1`,
hence above 0.9. -/
theorem claim_C2_amended (s t l : List Char) (hne : t ≠ l)
    (hsub : inChars t l = true) (hnonempty : t ≠ []) :
    calculateMatchQuality s s = 1 ∧
    calculateMatchQuality t l =
      9/10 + ((t.length : ℚ) / (l.length : ℚ)) * (1/10) ∧
    calculateMatchQuality t l > 9/10 := by
  have heq : calculateMatchQuality t l =
      9/10 + ((t.length : ℚ) / (l.length : ℚ)) * (1/10) := by
    unfold calculateMatchQuality
    rw [if_neg hne]
    simp [hsub]
  refine ⟨by unfold calculateMatchQuality; simp, heq, ?_⟩
  rw [heq]
  have h1 : (0 : ℚ) < t.length := by
    exact_mod_cast List.length_pos.mpr hnonempty
  have h2 : (0 : ℚ) < l.length := by
    have hle := inChars_length_le t l hsub
    have hle2 : (t.length : ℚ) ≤ l.length := by exact_mod_cast hle
    linarith
  have h3 : 0 < ((t.length : ℚ) / (l.length : ℚ)) * (1/10) := by positivity
  linarith

/-- Witness for the amended C2: `save` inside `saved` scores above 0.9, and
`save` against itself scores 1.0. -/
theorem claim_C2_witness :
    calculateMatchQuality "save".data "saved".data > 9/10 ∧
    calculateMatchQuality "save".data "save".data = 1 :=
  ⟨(claim_C2_amended "save".data "save".data "saved".data (by decide)
      (by decide) (by decide)).2.2,
   (claim_C2_amended "save".data "save".data "saved".data (by decide)
      (by decide) (by decide)).1⟩

/-- Counterexample to C8: a raw OCR block whose coordinates all lie in [0,1]
(with y + h above 1) produces, after the bottom-left-to-top-left conversion
`y' = 1 - y - h`, a treasure-map entry with a negative y coordinate. -/
theorem claim_C8_counterexample :
    (([⟨"Send", [1/10, 4/5, 1/5, 4/5]⟩] : List RawTextBlock).all
      fun rb => rb.bbox.all fun q => decide (0 ≤ q ∧ q ≤ 1)) = true ∧
    ((buildOcrBlocks [⟨"Send", [1/10, 4/5, 1/5, 4/5]⟩] true).all
      fun e => boxInUnit e.position) = false := by
  constructor
  · with_unfolding_all decide
  · with_unfolding_all decide

/-- Amended C8: when every raw bbox has coordinates in [0,1] and does not
extend past the screen edge (y + h at most 1), every entry built by
`_build_ocr_blocks` — in either coordinate convention — stays in the unit
square. -/
theorem claim_C8_amended (blocks : List RawTextBlock) (nt : Bool)
    (h : blocks.all rawBoxOk = true) :
    ∀ e ∈ buildOcrBlocks blocks nt, boxInUnit e.position = true := by
  intro e he
  unfold buildOcrBlocks at he
  rw [List.mem_filterMap] at he
  obtain ⟨b, hb, hfb⟩ := he
  have hok : rawBoxOk b = true := by
    rw [List.all_eq_true] at h
    exact h b hb
  unfold rawBoxOk at hok
  split at hfb
  next x y w hh heq =>
    rw [heq] at hok
    rw [decide_eq_true_eq] at hok
    obtain ⟨hx0, hx1, hy0, hw0, hw1, hh0, hh1, hyh⟩ := hok
    dsimp only at hfb
    by_cases ht : pyStrip b.text = ""
    · rw [if_neg (by simpa using ht)] at hfb
      exact absurd hfb (by simp)
    · rw [if_pos (by simpa using ht)] at hfb
      injection hfb with hfe
      subst hfe
      unfold boxInUnit
      rw [decide_eq_true_eq]
      have hy1 : y ≤ 1 := by linarith
      have hty0 : (0 : ℚ) ≤ 1 - y - hh := by linarith
      have hty1 : (1 : ℚ) - y - hh ≤ 1 := by linarith
      refine ⟨hx0, hx1, ?_, ?_, hw0, hw1, hh0, hh1⟩ <;> split <;> dsimp only <;> linarith
  next =>
    exact absurd hfb (by simp)

/-- Witness for the amended C8 at a concrete in-range block. -/
theorem claim_C8_witness :
    boxInUnit (VBox.mk 0 (7/10) (1/5) (1/5)) = true :=
  claim_C8_amended [⟨"OK", [0, 1/10, 1/5, 1/5]⟩] true (by with_unfolding_all decide)
    ⟨"text", "OK", ⟨0, 7/10, 1/5, 1/5⟩, "ocr"⟩ (by with_unfolding_all decide)

/-- A value is always close to itself under `math.isclose`. -/
theorem pyIsClose_self (y t : ℚ) : pyIsClose y y t = true := by
  unfold pyIsClose
  rw [decide_eq_true_eq]
  have h0 : |y - y| = 0 := by simp
  rw [h0]
  exact le_max_of_le_left (by positivity)

/-- Placing a block preserves the invariant that every block of a line is
close to the line anchor. -/
theorem placeInLines_close (yTol : ℚ) (b : OcrNB) (lns : List LineG)
    (h : ∀ ln ∈ lns, ∀ x ∈ ln.blocks, pyIsClose x.y ln.y yTol = true) :
    ∀ ln ∈ placeInLines yTol b lns, ∀ x ∈ ln.blocks,
      pyIsClose x.y ln.y yTol = true := by
  induction lns with
  | nil =>
    intro ln hln x hx
    simp only [placeInLines, List.mem_singleton] at hln
    subst hln
    simp only [List.mem_singleton] at hx
    subst hx
    exact pyIsClose_self _ _
  | cons ln0 rest ih =>
    intro ln hln x hx
    unfold placeInLines at hln
    by_cases hcl : pyIsClose b.y ln0.y yTol = true
    · rw [if_pos hcl] at hln
      rcases List.mem_cons.mp hln with rfl | hln2
      · dsimp only at hx
        rcases List.mem_append.mp hx with hx1 | hx2
        · exact h ln0 (List.mem_cons_self _ _) x hx1
        · rw [List.mem_singleton] at hx2
          subst hx2
          exact hcl
      · exact h ln (List.mem_cons_of_mem _ hln2) x hx
    · rw [if_neg hcl] at hln
      rcases List.mem_cons.mp hln with rfl | hln2
      · exact h ln (List.mem_cons_self _ _) x hx
      · exact ih (fun l hl => h l (List.mem_cons_of_mem _ hl)) ln hln2 x hx

/-- The closeness invariant holds for the grouping fold from any invariant
start. -/
theorem foldl_place_close (yTol : ℚ) (bs : List OcrNB) :
    ∀ lns : List LineG,
      (∀ ln ∈ lns, ∀ x ∈ ln.blocks, pyIsClose x.y ln.y yTol = true) →
      ∀ ln ∈ bs.foldl (fun l b => placeInLines yTol b l) lns, ∀ x ∈ ln.blocks,
        pyIsClose x.y ln.y yTol = true := by
  induction bs with
  | nil => intro lns h; simpa using h
  | cons b rest ih =>
    intro lns h
    rw [List.foldl_cons]
    exact ih (placeInLines yTol b lns) (placeInLines_close yTol b lns h)

/-- Placing a block either leaves the anchors unchanged (it joined a line) or
appends its own y as a new last anchor. -/
theorem placeInLines_anchors (yTol : ℚ) (b : OcrNB) (lns : List LineG) :
    (placeInLines yTol b lns).map LineG.y = lns.map LineG.y ∨
    (placeInLines yTol b lns).map LineG.y = lns.map LineG.y ++ [b.y] := by
  induction lns with
  | nil => right; simp [placeInLines]
  | cons ln0 rest ih =>
    unfold placeInLines
    by_cases hcl : pyIsClose b.y ln0.y yTol = true
    · left
      rw [if_pos hcl]
      simp
    · rw [if_neg hcl]
      rcases ih with h | h
      · left
        simp only [List.map_cons, h]
      · right
        simp only [List.map_cons, h, List.cons_append]

/-- Folding blocks of descending y over lines with descending anchors, all at
least the pending blocks, keeps the anchors descending. -/
theorem foldl_place_sorted (yTol : ℚ) (bs : List OcrNB) :
    ∀ lns : List LineG,
      List.Pairwise (fun p q : OcrNB => q.y ≤ p.y) bs →
      List.Pairwise (fun a c : ℚ => c ≤ a) (lns.map LineG.y) →
      (∀ x ∈ bs, ∀ a ∈ lns.map LineG.y, x.y ≤ a) →
      List.Pairwise (fun a c : ℚ => c ≤ a)
        ((bs.foldl (fun l b => placeInLines yTol b l) lns).map LineG.y) := by
  induction bs with
  | nil => intro lns _ h2 _; simpa using h2
  | cons b rest ih =>
    intro lns hs h2 h3
    rw [List.foldl_cons]
    have hpair := List.pairwise_cons.mp hs
    apply ih
    · exact hpair.2
    · rcases placeInLines_anchors yTol b lns with h | h
      · rw [h]; exact h2
      · rw [h, List.pairwise_append]
        refine ⟨h2, List.pairwise_singleton _ _, ?_⟩
        intro a ha c hc
        rw [List.mem_singleton] at hc
        subst hc
        exact h3 b (List.mem_cons_self _ _) a ha
    · intro x hx a ha
      rcases placeInLines_anchors yTol b lns with h | h
      · rw [h] at ha
        exact h3 x (List.mem_cons_of_mem _ hx) a ha
      · rw [h] at ha
        rcases List.mem_append.mp ha with ha1 | ha2
        · exact h3 x (List.mem_cons_of_mem _ hx) a ha1
        · rw [List.mem_singleton] at ha2
          subst ha2
          exact hpair.1 x hx

/-- The stable descending sort of the reconstruction is sorted. -/
theorem sortDescY_sorted (l : List OcrNB) :
    List.Pairwise (fun p q : OcrNB => q.y ≤ p.y) (sortDescY l) :=
  List.sorted_insertionSort _ l

/-- Amended C9: every detection lies within the y tolerance of its line
anchor (the y of the first, topmost block of the line) — the grouping is
anchor-based, not pairwise; lines are ordered top-to-bottom by descending
anchor y; and empty input yields empty output. -/
theorem claim_C9_line_grouping (raw : List RawDetection) (yTol xTol : ℚ)
    (ln : LineG) (b : OcrNB)
    (hln : ln ∈ groupIntoLines yTol (sortDescY (normalizeDetections raw)))
    (hb : b ∈ ln.blocks) :
    pyIsClose b.y ln.y yTol = true ∧
    List.Pairwise (fun a c : ℚ => c ≤ a)
      ((groupIntoLines yTol (sortDescY (normalizeDetections raw))).map LineG.y) ∧
    reconstructTextFromOcr [] yTol xTol = [] := by
  refine ⟨?_, ?_, rfl⟩
  · exact foldl_place_close yTol _ [] (by simp) ln hln b hb
  · exact foldl_place_sorted yTol _ [] (sortDescY_sorted _) (by simp) (by simp)

/-- Witness for the amended C9 on two detections 0.01 apart in y. -/
theorem claim_C9_witness :
    pyIsClose (49/100) (1/2) (3/200) = true ∧
    List.Pairwise (fun a c : ℚ => c ≤ a)
      ((groupIntoLines (3/200) (sortDescY (normalizeDetections
        [⟨"a", 1/10, 1/2⟩, ⟨"b", 2/10, 49/100⟩]))).map LineG.y) ∧
    reconstructTextFromOcr [] (3/200) (1/50) = [] := by
  have h := claim_C9_line_grouping [⟨"a", 1/10, 1/2⟩, ⟨"b", 2/10, 49/100⟩]
    (3/200) (1/50)
    ⟨1/2, [⟨"a", 1/10, 1/2⟩, ⟨"b", 1/5, 49/100⟩]⟩ ⟨"b", 1/5, 49/100⟩
    (by with_unfolding_all decide) (by with_unfolding_all decide)
  exact ⟨h.1, h.2.1, h.2.2⟩

/-- Counterexample to C9: three detections at y 0.5, 0.49, 0.48; the last two
differ by 0.01, within the 0.015 tolerance, yet they land on different lines
because grouping compares against the first line anchor 0.5. -/
theorem claim_C9_counterexample :
    reconstructTextFromOcr
      [⟨"a", 1/10, 1/2⟩, ⟨"b", 2/10, 49/100⟩, ⟨"c", 3/10, 48/100⟩]
      (3/200) (1/50) = ["a b", "c"] ∧
    pyIsClose (49/100) (48/100) (3/200) = true := by
  constructor
  · with_unfolding_all decide
  · with_unfolding_all decide

/-- The matched-set membership test agrees with list membership. -/
theorem memIdx_iff (n : Nat) (l : List Nat) : memIdx n l = true ↔ n ∈ l := by
  unfold memIdx
  rw [List.any_eq_true]
  constructor
  · rintro ⟨m, hm, he⟩
    rw [beq_iff_eq] at he
    subst he
    exact hm
  · intro h
    exact ⟨n, h, beq_self_eq_true n⟩

/-- Membership in a list through `get?`. -/
theorem mem_iff_getq {α : Type} (l : List α) (a : α) :
    a ∈ l ↔ ∃ k, l.get? k = some a := by
  induction l with
  | nil => simp
  | cons x rest ih =>
    constructor
    · intro h
      rcases List.mem_cons.mp h with rfl | h2
      · exact ⟨0, rfl⟩
      · obtain ⟨k, hk⟩ := ih.mp h2
        exact ⟨k + 1, by simpa using hk⟩
    · rintro ⟨k, hk⟩
      cases k with
      | zero =>
        rw [List.get?_cons_zero] at hk
        injection hk with hk
        subst hk
        exact List.mem_cons_self _ _
      | succ k =>
        rw [List.get?_cons_succ] at hk
        exact List.mem_cons_of_mem _ (ih.mpr ⟨k, hk⟩)

/-- Final blocks accumulated by the inner fusion loop: one `overlapping`
entry per matching cv block, in order. -/
theorem fuseInner_blocks (w h : ℚ) (i : Nat) (ocrB : VBlock) (cvl : List VBlock) :
    ∀ (j : Nat) (st : FuseState),
      (fuseInner w h i ocrB j cvl st).2.2 =
        st.2.2 ++ (cvl.filter fun cv => fusePairMatches w h ocrB cv).map
          (fun _ => overlapEntry ocrB) := by
  induction cvl with
  | nil => intro j st; simp [fuseInner]
  | cons cv rest ih =>
    intro j st
    by_cases hm : fusePairMatches w h ocrB cv = true
    · rw [show fuseInner w h i ocrB j (cv :: rest) st =
          fuseInner w h i ocrB (j + 1) rest
            (i :: st.1, j :: st.2.1, st.2.2 ++ [overlapEntry ocrB]) from by
        simp [fuseInner, hm]]
      rw [ih]
      simp [hm]
    · rw [show fuseInner w h i ocrB j (cv :: rest) st =
          fuseInner w h i ocrB (j + 1) rest st from by simp [fuseInner, hm]]
      rw [ih]
      simp [hm]

/-- Matched-ocr indices accumulated by the inner loop: the fixed index `i` is
added exactly when some cv block matches. -/
theorem fuseInner_mo (w h : ℚ) (i : Nat) (ocrB : VBlock) (cvl : List VBlock) :
    ∀ (j : Nat) (st : FuseState) (n : Nat),
      (n ∈ (fuseInner w h i ocrB j cvl st).1 ↔
        n ∈ st.1 ∨ (n = i ∧ ∃ cv ∈ cvl, fusePairMatches w h ocrB cv = true)) := by
  induction cvl with
  | nil => intro j st n; simp [fuseInner]
  | cons cv rest ih =>
    intro j st n
    by_cases hm : fusePairMatches w h ocrB cv = true
    · rw [show fuseInner w h i ocrB j (cv :: rest) st =
          fuseInner w h i ocrB (j + 1) rest
            (i :: st.1, j :: st.2.1, st.2.2 ++ [overlapEntry ocrB]) from by
        simp [fuseInner, hm]]
      rw [ih]
      dsimp only
      constructor
      · rintro (hn | ⟨rfl, cv2, hcv2, hm2⟩)
        · rcases List.mem_cons.mp hn with rfl | hn2
          · right
            exact ⟨rfl, cv, List.mem_cons_self _ _, hm⟩
          · left; exact hn2
        · right
          exact ⟨rfl, cv2, List.mem_cons_of_mem _ hcv2, hm2⟩
      · rintro (hn | ⟨rfl, cv2, hcv2, hm2⟩)
        · left; exact List.mem_cons_of_mem _ hn
        · left; exact List.mem_cons_self _ _
    · rw [show fuseInner w h i ocrB j (cv :: rest) st =
          fuseInner w h i ocrB (j + 1) rest st from by simp [fuseInner, hm]]
      rw [ih]
      constructor
      · rintro (hn | ⟨rfl, cv2, hcv2, hm2⟩)
        · left; exact hn
        · right
          exact ⟨rfl, cv2, List.mem_cons_of_mem _ hcv2, hm2⟩
      · rintro (hn | ⟨rfl, cv2, hcv2, hm2⟩)
        · left; exact hn
        · rcases List.mem_cons.mp hcv2 with rfl | hcv3
          · exact absurd hm2 (by simp [hm])
          · right
            exact ⟨rfl, cv2, hcv3, hm2⟩

/-- Matched-cv indices accumulated by the inner loop, walking from index `j`:
index `n` is added exactly for the matching cv block at offset `n - j`. -/
theorem fuseInner_mc (w h : ℚ) (i : Nat) (ocrB : VBlock) (cvl : List VBlock) :
    ∀ (j : Nat) (st : FuseState) (n : Nat),
      (n ∈ (fuseInner w h i ocrB j cvl st).2.1 ↔
        n ∈ st.2.1 ∨ (j ≤ n ∧ ∃ cv, cvl.get? (n - j) = some cv ∧
          fusePairMatches w h ocrB cv = true)) := by
  induction cvl with
  | nil => intro j st n; simp [fuseInner]
  | cons cv rest ih =>
    intro j st n
    by_cases hm : fusePairMatches w h ocrB cv = true
    · rw [show fuseInner w h i ocrB j (cv :: rest) st =
          fuseInner w h i ocrB (j + 1) rest
            (i :: st.1, j :: st.2.1, st.2.2 ++ [overlapEntry ocrB]) from by
        simp [fuseInner, hm]]
      rw [ih]
      dsimp only
      constructor
      · rintro (hn | ⟨hj, cv2, hg, hm2⟩)
        · rcases List.mem_cons.mp hn with rfl | hn2
          · right
            refine ⟨le_refl n, cv, ?_, hm⟩
            rw [Nat.sub_self]
            rfl
          · left; exact hn2
        · right
          refine ⟨by omega, cv2, ?_, hm2⟩
          rw [show n - j = (n - (j + 1)) + 1 from by omega]
          simpa using hg
      · rintro (hn | ⟨hj, cv2, hg, hm2⟩)
        · left; exact List.mem_cons_of_mem _ hn
        · by_cases hnj : n = j
          · subst hnj
            left; exact List.mem_cons_self _ _
          · right
            refine ⟨by omega, cv2, ?_, hm2⟩
            rw [show n - j = (n - (j + 1)) + 1 from by omega] at hg
            simpa using hg
    · rw [show fuseInner w h i ocrB j (cv :: rest) st =
          fuseInner w h i ocrB (j + 1) rest st from by simp [fuseInner, hm]]
      rw [ih]
      constructor
      · rintro (hn | ⟨hj, cv2, hg, hm2⟩)
        · left; exact hn
        · right
          refine ⟨by omega, cv2, ?_, hm2⟩
          rw [show n - j = (n - (j + 1)) + 1 from by omega]
          simpa using hg
      · rintro (hn | ⟨hj, cv2, hg, hm2⟩)
        · left; exact hn
        · by_cases hnj : n = j
          · subst hnj
            rw [Nat.sub_self, List.get?_cons_zero] at hg
            injection hg with hg
            subst hg
            exact absurd hm2 (by simp [hm])
          · right
            refine ⟨by omega, cv2, ?_, hm2⟩
            rw [show n - j = (n - (j + 1)) + 1 from by omega] at hg
            simpa using hg

/-- Final blocks of the outer loop: for each ocr entry in order, one
`overlapping` copy per matching cv block. -/
theorem fuseOuter_blocks (w h : ℚ) (cvBlocks : List VBlock) (ol : List VBlock) :
    ∀ (i : Nat) (st : FuseState),
      (fuseOuter w h cvBlocks i ol st).2.2 =
        st.2.2 ++ ol.flatMap (fun ocrB =>
          (cvBlocks.filter fun cv => fusePairMatches w h ocrB cv).map
            (fun _ => overlapEntry ocrB)) := by
  induction ol with
  | nil => intro i st; simp [fuseOuter]
  | cons ocrB rest ih =>
    intro i st
    rw [show fuseOuter w h cvBlocks i (ocrB :: rest) st =
        fuseOuter w h cvBlocks (i + 1) rest
          (fuseInner w h i ocrB 0 cvBlocks st) from rfl]
    rw [ih, fuseInner_blocks]
    simp

/-- Matched-ocr indices of the outer loop, walking from index `i`. -/
theorem fuseOuter_mo (w h : ℚ) (cvBlocks : List VBlock) (ol : List VBlock) :
    ∀ (i : Nat) (st : FuseState) (n : Nat),
      (n ∈ (fuseOuter w h cvBlocks i ol st).1 ↔
        n ∈ st.1 ∨ (i ≤ n ∧ ∃ ocrB, ol.get? (n - i) = some ocrB ∧
          ∃ cv ∈ cvBlocks, fusePairMatches w h ocrB cv = true)) := by
  induction ol with
  | nil => intro i st n; simp [fuseOuter]
  | cons ocrB rest ih =>
    intro i st n
    rw [show fuseOuter w h cvBlocks i (ocrB :: rest) st =
        fuseOuter w h cvBlocks (i + 1) rest
          (fuseInner w h i ocrB 0 cvBlocks st) from rfl]
    rw [ih, fuseInner_mo]
    constructor
    · rintro ((hn | ⟨rfl, cv, hcv, hm⟩) | ⟨hi, ocrB2, hg, hma⟩)
      · left; exact hn
      · right
        refine ⟨le_refl n, ocrB, ?_, cv, hcv, hm⟩
        rw [Nat.sub_self]
        rfl
      · right
        refine ⟨by omega, ocrB2, ?_, hma⟩
        rw [show n - i = (n - (i + 1)) + 1 from by omega]
        simpa using hg
    · rintro (hn | ⟨hi, ocrB2, hg, hma⟩)
      · left; left; exact hn
      · by_cases hni : n = i
        · subst hni
          rw [Nat.sub_self, List.get?_cons_zero] at hg
          injection hg with hg
          subst hg
          left; right
          exact ⟨rfl, hma⟩
        · right
          refine ⟨by omega, ocrB2, ?_, hma⟩
          rw [show n - i = (n - (i + 1)) + 1 from by omega] at hg
          simpa using hg

/-- Matched-cv indices of the outer loop: absolute cv indices matched by any
pending ocr entry. -/
theorem fuseOuter_mc (w h : ℚ) (cvBlocks : List VBlock) (ol : List VBlock) :
    ∀ (i : Nat) (st : FuseState) (n : Nat),
      (n ∈ (fuseOuter w h cvBlocks i ol st).2.1 ↔
        n ∈ st.2.1 ∨ (∃ cv, cvBlocks.get? n = some cv ∧
          ∃ ocrB ∈ ol, fusePairMatches w h ocrB cv = true)) := by
  induction ol with
  | nil => intro i st n; simp [fuseOuter]
  | cons ocrB rest ih =>
    intro i st n
    rw [show fuseOuter w h cvBlocks i (ocrB :: rest) st =
        fuseOuter w h cvBlocks (i + 1) rest
          (fuseInner w h i ocrB 0 cvBlocks st) from rfl]
    rw [ih, fuseInner_mc]
    constructor
    · rintro ((hn | ⟨_, cv, hg, hm⟩) | ⟨cv, hg, ocrB2, ho, hm⟩)
      · left; exact hn
      · right
        refine ⟨cv, by simpa using hg, ocrB, List.mem_cons_self _ _, hm⟩
      · right
        exact ⟨cv, hg, ocrB2, List.mem_cons_of_mem _ ho, hm⟩
    · rintro (hn | ⟨cv, hg, ocrB2, ho, hm⟩)
      · left; left; exact hn
      · rcases List.mem_cons.mp ho with rfl | ho2
        · left; right
          exact ⟨Nat.zero_le n, cv, by simpa using hg, hm⟩
        · right
          exact ⟨cv, hg, ocrB2, ho2, hm⟩

/-- Membership in the unmatched-append loop, walking from index `j`. -/
theorem unmatchedFrom_mem (matched : List Nat) (l : List VBlock) :
    ∀ (j : Nat) (b : VBlock),
      (b ∈ unmatchedFrom matched j l ↔
        ∃ k, l.get? k = some b ∧ memIdx (j + k) matched = false) := by
  induction l with
  | nil => intro j b; simp [unmatchedFrom]
  | cons c rest ih =>
    intro j b
    by_cases hm : memIdx j matched = true
    · rw [show unmatchedFrom matched j (c :: rest) =
          unmatchedFrom matched (j + 1) rest from by simp [unmatchedFrom, hm]]
      rw [ih]
      constructor
      · rintro ⟨k, hg, hf⟩
        refine ⟨k + 1, by simpa using hg, ?_⟩
        rw [show j + (k + 1) = j + 1 + k from by omega]
        exact hf
      · rintro ⟨k, hg, hf⟩
        cases k with
        | zero =>
          rw [Nat.add_zero] at hf
          rw [hm] at hf
          cases hf
        | succ k =>
          refine ⟨k, by simpa using hg, ?_⟩
          rw [show j + 1 + k = j + (k + 1) from by omega]
          exact hf
    · rw [Bool.not_eq_true] at hm
      rw [show unmatchedFrom matched j (c :: rest) =
          c :: unmatchedFrom matched (j + 1) rest from by simp [unmatchedFrom, hm]]
      constructor
      · intro hb
        rcases List.mem_cons.mp hb with rfl | hb2
        · exact ⟨0, rfl, by simpa using hm⟩
        · obtain ⟨k, hg, hf⟩ := (ih (j + 1) b).mp hb2
          refine ⟨k + 1, by simpa using hg, ?_⟩
          rw [show j + (k + 1) = j + 1 + k from by omega]
          exact hf
      · rintro ⟨k, hg, hf⟩
        cases k with
        | zero =>
          rw [List.get?_cons_zero] at hg
          injection hg with hg
          subst hg
          exact List.mem_cons_self _ _
        | succ k =>
          rw [List.get?_cons_succ] at hg
          refine List.mem_cons_of_mem _ ((ih (j + 1) b).mpr ⟨k, hg, ?_⟩)
          rw [show j + 1 + k = j + (k + 1) from by omega]
          exact hf

/-- The unmatched-append loop only emits blocks of the walked list. -/
theorem unmatchedFrom_subset (matched : List Nat) (l : List VBlock)
    (j : Nat) (b : VBlock) (hb : b ∈ unmatchedFrom matched j l) : b ∈ l := by
  obtain ⟨k, hg, _⟩ := (unmatchedFrom_mem matched l j b).mp hb
  exact (mem_iff_getq l b).mpr ⟨k, hg⟩

/-- C7: in the fusion loop, every (ocr, cv) pair whose boxes meet the IoU or
centre-distance test yields an `overlapping` entry carrying the ocr label,
while neither of the two source entries appears in the output under its own
tag; and every unmatched entry of either source is kept in the output with
its own source tag. -/
theorem claim_C7_fusion_dedup (w h : ℚ) (ocrBlocks cvBlocks : List VBlock)
    (hocr : ∀ b ∈ ocrBlocks, b.source = "ocr")
    (hcv : ∀ b ∈ cvBlocks, b.source = "cv") :
    (∀ ocrB ∈ ocrBlocks, ∀ cvB ∈ cvBlocks,
      fusePairMatches w h ocrB cvB = true →
        overlapEntry ocrB ∈ generateCombinedCore w h ocrBlocks cvBlocks ∧
        (overlapEntry ocrB).label = ocrB.label ∧
        (overlapEntry ocrB).source = "overlapping" ∧
        ocrB ∉ generateCombinedCore w h ocrBlocks cvBlocks ∧
        cvB ∉ generateCombinedCore w h ocrBlocks cvBlocks) ∧
    (∀ ocrB ∈ ocrBlocks,
      (∀ cvB ∈ cvBlocks, fusePairMatches w h ocrB cvB = false) →
        ocrB ∈ generateCombinedCore w h ocrBlocks cvBlocks) ∧
    (∀ cvB ∈ cvBlocks,
      (∀ ocrB ∈ ocrBlocks, fusePairMatches w h ocrB cvB = false) →
        cvB ∈ generateCombinedCore w h ocrBlocks cvBlocks) := by
  set st := fuseOuter w h cvBlocks 0 ocrBlocks ([], [], []) with hst
  have hF : generateCombinedCore w h ocrBlocks cvBlocks =
      st.2.2 ++ unmatchedFrom st.1 0 ocrBlocks ++
        unmatchedFrom st.2.1 0 cvBlocks := by
    rw [hst]
    rfl
  have hfb : st.2.2 = ocrBlocks.flatMap (fun ocrB =>
      (cvBlocks.filter fun cv => fusePairMatches w h ocrB cv).map
        (fun _ => overlapEntry ocrB)) := by
    rw [hst, fuseOuter_blocks]
    simp
  have hmo : ∀ n, n ∈ st.1 ↔ ∃ ocrB, ocrBlocks.get? n = some ocrB ∧
      ∃ cv ∈ cvBlocks, fusePairMatches w h ocrB cv = true := by
    intro n
    rw [hst, fuseOuter_mo]
    simp
  have hmc : ∀ n, n ∈ st.2.1 ↔ ∃ cv, cvBlocks.get? n = some cv ∧
      ∃ ocrB ∈ ocrBlocks, fusePairMatches w h ocrB cv = true := by
    intro n
    rw [hst, fuseOuter_mc]
    simp
  have hfb_src : ∀ x ∈ st.2.2, x.source = "overlapping" := by
    intro x hx
    rw [hfb, List.mem_flatMap] at hx
    obtain ⟨p, _, hx2⟩ := hx
    rw [List.mem_map] at hx2
    obtain ⟨_, _, hx3⟩ := hx2
    rw [← hx3]
    rfl
  refine ⟨?_, ?_, ?_⟩
  · intro ocrB hocrB cvB hcvB hm
    refine ⟨?_, rfl, rfl, ?_, ?_⟩
    · rw [hF]
      refine List.mem_append.mpr (Or.inl (List.mem_append.mpr (Or.inl ?_)))
      rw [hfb, List.mem_flatMap]
      exact ⟨ocrB, hocrB, List.mem_map_of_mem _ (List.mem_filter.mpr ⟨hcvB, hm⟩)⟩
    · intro hmem
      rw [hF] at hmem
      rcases List.mem_append.mp hmem with hmem1 | hmem3
      · rcases List.mem_append.mp hmem1 with hmem1a | hmem2
        · have hs := hfb_src ocrB hmem1a
          rw [hocr ocrB hocrB] at hs
          exact absurd hs (by decide)
        · obtain ⟨k, hg, hf⟩ := (unmatchedFrom_mem _ _ _ _).mp hmem2
          rw [Nat.zero_add] at hf
          have hk : k ∈ st.1 := (hmo k).mpr ⟨ocrB, hg, cvB, hcvB, hm⟩
          rw [← memIdx_iff] at hk
          rw [hk] at hf
          cases hf
      · have hmemcv := unmatchedFrom_subset _ _ _ _ hmem3
        have h1 := hcv ocrB hmemcv
        rw [hocr ocrB hocrB] at h1
        exact absurd h1 (by decide)
    · intro hmem
      rw [hF] at hmem
      rcases List.mem_append.mp hmem with hmem1 | hmem3
      · rcases List.mem_append.mp hmem1 with hmem1a | hmem2
        · have hs := hfb_src cvB hmem1a
          rw [hcv cvB hcvB] at hs
          exact absurd hs (by decide)
        · have hmemocr := unmatchedFrom_subset _ _ _ _ hmem2
          have h1 := hocr cvB hmemocr
          rw [hcv cvB hcvB] at h1
          exact absurd h1 (by decide)
      · obtain ⟨k, hg, hf⟩ := (unmatchedFrom_mem _ _ _ _).mp hmem3
        rw [Nat.zero_add] at hf
        have hk : k ∈ st.2.1 := (hmc k).mpr ⟨cvB, hg, ocrB, hocrB, hm⟩
        rw [← memIdx_iff] at hk
        rw [hk] at hf
        cases hf
  · intro ocrB hocrB hnone
    obtain ⟨k, hg⟩ := (mem_iff_getq _ _).mp hocrB
    have hf : memIdx (0 + k) st.1 = false := by
      rw [Nat.zero_add, ← Bool.not_eq_true]
      intro hk
      rw [memIdx_iff] at hk
      obtain ⟨ocrB2, hg2, cv, hcvmem, hm2⟩ := (hmo k).mp hk
      rw [hg] at hg2
      injection hg2 with hg2
      subst hg2
      exact absurd hm2 (by rw [hnone cv hcvmem]; simp)
    rw [hF]
    refine List.mem_append.mpr (Or.inl (List.mem_append.mpr (Or.inr ?_)))
    exact (unmatchedFrom_mem _ _ _ _).mpr ⟨k, hg, hf⟩
  · intro cvB hcvB hnone
    obtain ⟨k, hg⟩ := (mem_iff_getq _ _).mp hcvB
    have hf : memIdx (0 + k) st.2.1 = false := by
      rw [Nat.zero_add, ← Bool.not_eq_true]
      intro hk
      rw [memIdx_iff] at hk
      obtain ⟨cv2, hg2, ocrB2, hocrmem, hm2⟩ := (hmc k).mp hk
      rw [hg] at hg2
      injection hg2 with hg2
      subst hg2
      exact absurd hm2 (by rw [hnone ocrB2 hocrmem]; simp)
    rw [hF]
    exact List.mem_append.mpr (Or.inr ((unmatchedFrom_mem _ _ _ _).mpr ⟨k, hg, hf⟩))

/-- Witness for C7 on one overlapping ocr/cv pair over a 1000 x 1000 image. -/
theorem claim_C7_witness :
    overlapEntry ocrBlockExample ∈
      generateCombinedCore 1000 1000 [ocrBlockExample] [cvBlockExample] ∧
    ocrBlockExample ∉
      generateCombinedCore 1000 1000 [ocrBlockExample] [cvBlockExample] ∧
    cvBlockExample ∉
      generateCombinedCore 1000 1000 [ocrBlockExample] [cvBlockExample] := by
  have h := (claim_C7_fusion_dedup 1000 1000 [ocrBlockExample] [cvBlockExample]
    (by intro b hb; rw [List.mem_singleton] at hb; rw [hb]
        with_unfolding_all decide)
    (by intro b hb; rw [List.mem_singleton] at hb; rw [hb]
        with_unfolding_all decide)).1
    ocrBlockExample (List.mem_singleton.mpr rfl)
    cvBlockExample (List.mem_singleton.mpr rfl)
    (by with_unfolding_all decide)
  exact ⟨h.1, h.2.2.2.1, h.2.2.2.2⟩
